import Mathlib

/-!
Shallow embedding of `transformer_nuggets/qnt/qlora.py` (NF4 block-wise
quantization).  Tensors are modelled as flat `List ℚ`; a bfloat16 scalar
that may be non-numeric is `Option ℚ` with `none` standing for NaN (which
in this code arises only as `0/0` when a block's scale is zero).  The exact
rational values of the codebook stand in for their bfloat16 roundings: no
theorem below depends on anything beyond the codebook being sorted with
endpoints `-1` and `1`, which the bfloat16 roundings share.
-/

namespace QLoRA

/-- A bfloat16 scalar: `none` models NaN (every comparison with NaN is
false), `some q` a finite value.  `0/0`, the only non-finite value reachable
in this code, is NaN. -/
abbrev FloatVal := Option ℚ

/-- Float comparison `v <= c`: false whenever `v` is NaN. -/
def fle (v : FloatVal) (c : ℚ) : Bool :=
  match v with
  | none => false
  | some q => decide (q ≤ c)

/-- The literal 16-entry NF4 codebook (`self.nf4` in `QLoRAWeight.__init__`,
also `QLoRAWeightDebug.get_nkf(cached=True)`). -/
def nf4 : List ℚ :=
  [-1, -6962/10000, -5251/10000, -3949/10000, -2844/10000, -1848/10000,
   -911/10000, 0, 796/10000, 1609/10000, 2461/10000, 3379/10000,
   4407/10000, 5626/10000, 7230/10000, 1]

/-- `QLoRAWeight.quantize_tensor`: `mask = value <= nf4` element-wise, then
`indexes = 16 - mask.sum` (the `0 |` in the source is the identity).  The
`16` is hardcoded in the source. -/
def quantize_tensor (value : FloatVal) (cb : List ℚ) : ℕ :=
  16 - cb.countP (fun c => fle value c)

/-- `QLoRAWeightDebug.quantize`: linear scan returning the first index `i`
with `value <= nkf[i]`, and `len(nkf) - 1` when the loop falls through. -/
def quantize (value : FloatVal) (nkf : List ℚ) : ℕ :=
  match nkf.findIdx? (fun c => fle value c) with
  | some i => i
  | none => nkf.length - 1

/-- `dequantize`: plain table lookup `nf4[value]`. -/
def dequantize (value : ℕ) (cb : List ℚ) : ℚ :=
  cb.getD value 0

/-- `flattened_tensor.view(n_blocks, block_size)`: the k-th block is the
k-th contiguous run of `block_size` elements. -/
def viewBlocks (n_blocks block_size : ℕ) (xs : List ℚ) : List (List ℚ) :=
  (List.range n_blocks).map (fun i => (xs.drop (i * block_size)).take block_size)

/-- `block.abs().max()`: maximum absolute value of a block.  The `0` seed is
neutral because every `|x|` is nonnegative and blocks are nonempty. -/
def absmax (b : List ℚ) : ℚ :=
  (b.map (fun x => |x|)).foldl max 0

/-- `QLoRAWeight.get_scalers`: one absmax scale per contiguous block of the
flattened input (`n_blocks = numel // block_size`). -/
def get_scalers (xs : List ℚ) (block_size : ℕ) : List ℚ :=
  (viewBlocks (xs.length / block_size) block_size xs).map absmax

/-- Float division of a block element by its block scale.  A zero scale
gives NaN: the only element of a zero-absmax block is `0`, and `0/0` is NaN
in IEEE arithmetic. -/
def scaleDiv (x s : ℚ) : FloatVal :=
  if s = 0 then none else some (x / s)

/-- `scaled_blocks.flatten()` of `convert_to_norm_float_weight`: each block
divided element-wise by its own scale (`scales = scalers.unsqueeze(-1).expand`),
then flattened. -/
def scaled_values (xs : List ℚ) (block_size : ℕ) : List FloatVal :=
  (((viewBlocks (xs.length / block_size) block_size xs).zip
      (get_scalers xs block_size)).map
    (fun p => p.1.map (fun x => scaleDiv x p.2))).flatten

/-- `quantized_blocks = self.quantize_tensor(scaled_blocks.flatten(), self.nf4)`. -/
def quantized_blocks (xs : List ℚ) (block_size : ℕ) : List ℕ :=
  (scaled_values xs block_size).map (fun v => quantize_tensor v nf4)

/-- One packed byte: `a << 4 | b`, truncated by the `.to(torch.uint8)` cast. -/
def pack (a b : ℕ) : ℕ :=
  ((a <<< 4) ||| b) % 256

/-- `quantized_blocks[::2] << 4 | quantized_blocks[1::2]` followed by the
uint8 cast: consecutive index pairs become consecutive bytes. -/
def pack_pairs : List ℕ → List ℕ
  | a :: b :: rest => pack a b :: pack_pairs rest
  | _ => []

/-- `QLoRAWeight.convert_to_norm_float_weight` after the shape assertions:
scale, quantize, pack. -/
def convert_to_norm_float_weight (xs : List ℚ) (block_size : ℕ) : List ℕ :=
  pack_pairs (quantized_blocks xs block_size)

/-- One byte unpacked as in `get_original_weight`: high nibble `byte >> 4`,
low nibble `byte & 0b1111`. -/
def unpack (x : ℕ) : ℕ × ℕ :=
  (x >>> 4, x &&& 15)

/-- `first_elements = (norm_float_weight >> 4)` of `get_original_weight`. -/
def unpack_first (bytes : List ℕ) : List ℕ :=
  bytes.map (fun x => x >>> 4)

/-- `second_elements = (norm_float_weight & 0b1111)` of `get_original_weight`. -/
def unpack_second (bytes : List ℕ) : List ℕ :=
  bytes.map (fun x => x &&& 15)

/-- Torch dtypes relevant to the asserts in the constructors. -/
inductive DType where
  | bfloat16
  | float16
  | float32
  | float64
  | int8
  | int32
  | int64
  | uint8
deriving DecidableEq

/-- Which assertion of the constructor fired. -/
inductive EncodeError where
  | dtypeError
  | shapeError
deriving DecidableEq

/-- The encoded artifact held by a `QLoRAWeight` after `__init__`. -/
structure QLoRAWeightArtifact where
  scalers : List ℚ
  norm_float_weight : List ℕ
  block_size : ℕ
  numel : ℕ
deriving DecidableEq

/-- `QLoRAWeight.__init__` followed by `convert_to_norm_float_weight`, with
its assertions in source order: dtype must be bfloat16 (lines 10 and 14),
element count divisible by `block_size` (line 11), element count even
(line 57, inside `convert_to_norm_float_weight`). -/
def qloraInit (dtype : DType) (xs : List ℚ) (block_size : ℕ) :
    Except EncodeError QLoRAWeightArtifact :=
  if dtype ≠ DType.bfloat16 then Except.error EncodeError.dtypeError
  else if xs.length % block_size ≠ 0 then Except.error EncodeError.shapeError
  else if xs.length % 2 ≠ 0 then Except.error EncodeError.shapeError
  else Except.ok
    { scalers := get_scalers xs block_size
      norm_float_weight := convert_to_norm_float_weight xs block_size
      block_size := block_size
      numel := xs.length }

/-- `QLoRAWeightDebug.get_norm_float_weight` after its shape assertion: the
per-block, two-at-a-time loop scales each block by its scale, quantizes with
the linear-scan `quantize`, and stores byte `i * block_size // 2 + j // 2`,
i.e. consecutive pairs into consecutive bytes. -/
def get_norm_float_weight (xs : List ℚ) (block_size : ℕ) : List ℕ :=
  pack_pairs ((scaled_values xs block_size).map (fun v => quantize v nf4))

/-- `QLoRAWeightDebug.__init__`: same dtype assert (line 175), divisibility
assert (line 176), evenness assert inside `get_norm_float_weight` (line 201). -/
def qloraDebugInit (dtype : DType) (xs : List ℚ) (block_size : ℕ) :
    Except EncodeError QLoRAWeightArtifact :=
  if dtype ≠ DType.bfloat16 then Except.error EncodeError.dtypeError
  else if xs.length % block_size ≠ 0 then Except.error EncodeError.shapeError
  else if xs.length % 2 ≠ 0 then Except.error EncodeError.shapeError
  else Except.ok
    { scalers := get_scalers xs block_size
      norm_float_weight := get_norm_float_weight xs block_size
      block_size := block_size
      numel := xs.length }

/-- The quantization rule exactly as the spec words it (section 4.3): the
smallest index `i` such that `value <= codebook[i]`; when no such index
exists, the last index.  `List.findIdx` is that smallest index, with the
length as its not-found sentinel, so capping at `length - 1` realises the
"returns the last index" clause. -/
def specQuantize (q : ℚ) (cb : List ℚ) : ℕ :=
  min (cb.findIdx (fun c => decide (q ≤ c))) (cb.length - 1)

@[simp] lemma fle_some (q c : ℚ) : fle (some q) c = decide (q ≤ c) := rfl

@[simp] lemma fle_none (c : ℚ) : fle none c = false := rfl

lemma nf4_sorted : nf4.Pairwise (· ≤ ·) := by
  norm_num [nf4, List.pairwise_cons]

lemma nf4_length : nf4.length = 16 := rfl

lemma nf4_mem_le_one : ∀ c ∈ nf4, c ≤ 1 := by
  norm_num [nf4]

lemma one_mem_nf4 : (1 : ℚ) ∈ nf4 := by
  norm_num [nf4]

/-- On a sorted codebook, counting the entries at or above `q` is the same as
counting the entries from the first one at or above `q` to the end. -/
lemma countP_of_sorted (q : ℚ) (l : List ℚ) (h : l.Pairwise (· ≤ ·)) :
    l.countP (fun c => decide (q ≤ c)) =
      l.length - l.findIdx (fun c => decide (q ≤ c)) := by
  induction l with
  | nil => simp
  | cons c rest ih =>
    rcases List.pairwise_cons.mp h with ⟨hc, hrest⟩
    by_cases hq : q ≤ c
    · rw [List.countP_cons_of_pos _ _ (by simpa using hq), List.findIdx_cons]
      have hall : rest.countP (fun c => decide (q ≤ c)) = rest.length := by
        rw [List.countP_eq_length]
        intro a ha
        simpa using le_trans hq (hc a ha)
      simp [hq, hall]
    · have hqb : (decide (q ≤ c)) = false := decide_eq_false hq
      rw [List.countP_cons_of_neg _ _ (by simp [hqb]), List.findIdx_cons, hqb]
      simp only [cond_false, List.length_cons, ih hrest, Nat.succ_sub_succ]

/-- The vectorized quantizer equals `findIdx` (never saturating: it is the
raw count `16 - #{c : q ≤ c}`). -/
lemma quantize_tensor_eq_findIdx (q : ℚ) :
    quantize_tensor (some q) nf4 = nf4.findIdx (fun c => decide (q ≤ c)) := by
  rw [quantize_tensor]
  simp only [fle_some]
  rw [countP_of_sorted q nf4 nf4_sorted, nf4_length]
  have hle : nf4.findIdx (fun c => decide (q ≤ c)) ≤ nf4.length :=
    List.findIdx_le_length _
  rw [nf4_length] at hle
  omega

/-- The debug quantizer equals `findIdx` saturated at the last index. -/
lemma quantize_eq_min_findIdx (q : ℚ) :
    quantize (some q) nf4 = min (nf4.findIdx (fun c => decide (q ≤ c))) 15 := by
  rw [quantize]
  simp only [fle_some]
  rw [List.findIdx?_eq_guard_findIdx_lt, Option.guard]
  by_cases h : nf4.findIdx (fun c => decide (q ≤ c)) < nf4.length
  · rw [if_pos h]
    have : nf4.findIdx (fun c => decide (q ≤ c)) ≤ 15 := by
      rw [nf4_length] at h; omega
    simp [Nat.min_eq_left this]
  · rw [if_neg h]
    have h2 : nf4.findIdx (fun c => decide (q ≤ c)) ≤ nf4.length :=
      List.findIdx_le_length _
    rw [nf4_length] at h h2
    have : nf4.findIdx (fun c => decide (q ≤ c)) = 16 := by omega
    simp [nf4_length, this]

/-- A value at or below the top codepoint `1` is found inside the codebook. -/
lemma findIdx_le_15_of_le_one {q : ℚ} (h : q ≤ 1) :
    nf4.findIdx (fun c => decide (q ≤ c)) ≤ 15 := by
  have hlt : nf4.findIdx (fun c => decide (q ≤ c)) < nf4.length :=
    List.findIdx_lt_length_of_exists ⟨1, one_mem_nf4, by simpa using h⟩
  rw [nf4_length] at hlt
  omega

/-- A weaker predicate is satisfied at or before a stronger one. -/
lemma findIdx_mono_pred {p q : ℚ → Bool} (hpq : ∀ c, q c = true → p c = true) :
    ∀ l : List ℚ, l.findIdx p ≤ l.findIdx q := by
  intro l
  induction l with
  | nil => simp
  | cons c rest ih =>
    rw [List.findIdx_cons, List.findIdx_cons]
    cases hq : q c
    · cases hp : p c
      · simpa using Nat.succ_le_succ ih
      · simp
    · rw [hpq c hq]
      simp

lemma quantize_tensor_le_15_of_le_one {q : ℚ} (h : q ≤ 1) :
    quantize_tensor (some q) nf4 ≤ 15 := by
  rw [quantize_tensor_eq_findIdx]
  exact findIdx_le_15_of_le_one h

lemma le_foldl_max (l : List ℚ) (a : ℚ) : a ≤ l.foldl max a := by
  induction l generalizing a with
  | nil => simp
  | cons x t ih =>
    rw [List.foldl_cons]
    exact le_trans (le_max_left a x) (ih (max a x))

lemma mem_le_foldl_max : ∀ (l : List ℚ) (a x : ℚ), x ∈ l → x ≤ l.foldl max a
  | [], _, _, hx => by cases hx
  | y :: t, a, x, hx => by
    rw [List.foldl_cons]
    rcases List.mem_cons.mp hx with rfl | h
    · exact le_trans (le_max_right a x) (le_foldl_max t _)
    · exact mem_le_foldl_max t (max a y) x h

lemma foldl_max_eq_init_or_mem :
    ∀ (l : List ℚ) (a : ℚ), l.foldl max a = a ∨ l.foldl max a ∈ l
  | [], _ => Or.inl rfl
  | x :: t, a => by
    rw [List.foldl_cons]
    rcases foldl_max_eq_init_or_mem t (max a x) with h | h
    · rcases max_cases a x with ⟨he, _⟩ | ⟨he, _⟩
      · exact Or.inl (by rw [h, he])
      · exact Or.inr (by rw [h, he]; exact List.mem_cons_self x t)
    · exact Or.inr (List.mem_cons_of_mem x h)

lemma absmax_nonneg (b : List ℚ) : 0 ≤ absmax b :=
  le_foldl_max _ 0

lemma abs_le_absmax {b : List ℚ} {x : ℚ} (hx : x ∈ b) : |x| ≤ absmax b :=
  mem_le_foldl_max _ 0 _ (List.mem_map_of_mem _ hx)

/-- On a nonempty block the absmax scale is attained by some element. -/
lemma absmax_attained {b : List ℚ} (hb : b ≠ []) : ∃ x ∈ b, |x| = absmax b := by
  rcases foldl_max_eq_init_or_mem (b.map (fun x => |x|)) 0 with h | h
  · have h0 : absmax b = 0 := h
    rcases List.exists_mem_of_ne_nil b hb with ⟨x, hx⟩
    refine ⟨x, hx, le_antisymm (abs_le_absmax hx) ?_⟩
    rw [h0]
    exact abs_nonneg x
  · rcases List.mem_map.mp h with ⟨x, hx, he⟩
    exact ⟨x, hx, he⟩

lemma zip_self_map {α β : Type} (l : List α) (g : α → β) :
    l.zip (l.map g) = l.map (fun a => (a, g a)) := by
  have h := List.zip_map' (fun a => a) g l
  simpa using h

/-- Every scaled value is some block element divided by that block's own
absmax scale. -/
lemma mem_scaled_values {xs : List ℚ} {bs : ℕ} {v : FloatVal}
    (hv : v ∈ scaled_values xs bs) :
    ∃ b ∈ viewBlocks (xs.length / bs) bs xs, ∃ x ∈ b, v = scaleDiv x (absmax b) := by
  rw [scaled_values, get_scalers, zip_self_map, List.map_map] at hv
  rcases List.mem_flatten.mp hv with ⟨l, hl, hvl⟩
  rcases List.mem_map.mp hl with ⟨b, hb, rfl⟩
  simp only [Function.comp] at hvl
  rcases List.mem_map.mp hvl with ⟨x, hx, he⟩
  exact ⟨b, hb, x, hx, he.symm⟩

lemma pack_nibbles : ∀ a < 16, ∀ b < 16, pack a b >>> 4 = a ∧ pack a b &&& 15 = b := by
  decide

lemma mem_pack_pairs_lt_256 : ∀ (l : List ℕ) (y : ℕ), y ∈ pack_pairs l → y < 256
  | [], y, hy => by simp [pack_pairs] at hy
  | [a], y, hy => by simp [pack_pairs] at hy
  | a :: b :: rest, y, hy => by
    simp only [pack_pairs] at hy
    rcases List.mem_cons.mp hy with rfl | h
    · exact Nat.mod_lt _ (by norm_num)
    · exact mem_pack_pairs_lt_256 rest y h

/-- Byte `k` of the packed stream holds index `2k` in its high nibble and
index `2k+1` in its low nibble. -/
lemma pack_pairs_getD : ∀ (idx : List ℕ), (∀ i ∈ idx, i < 16) →
    ∀ k, 2 * k + 1 < idx.length →
      (pack_pairs idx).getD k 0 >>> 4 = idx.getD (2 * k) 0 ∧
      (pack_pairs idx).getD k 0 &&& 15 = idx.getD (2 * k + 1) 0
  | [], _, k, hk => by simp at hk
  | [a], _, k, hk => by
    simp only [List.length_singleton] at hk
    omega
  | a :: b :: rest, hlt, 0, hk => by
    have ha : a < 16 := hlt a (List.mem_cons_self _ _)
    have hb : b < 16 := hlt b (List.mem_cons_of_mem _ (List.mem_cons_self _ _))
    have hp := pack_nibbles a ha b hb
    simp only [pack_pairs, List.getD_cons_zero, Nat.mul_zero, Nat.zero_add,
      List.getD_cons_succ]
    exact ⟨hp.1, hp.2⟩
  | a :: b :: rest, hlt, k + 1, hk => by
    have hrest : ∀ i ∈ rest, i < 16 := fun i hi => hlt i (by simp [hi])
    have hk' : 2 * k + 1 < rest.length := by
      simp only [List.length_cons] at hk
      omega
    have ih := pack_pairs_getD rest hrest k hk'
    have e1 : 2 * (k + 1) = 2 * k + 1 + 1 := by ring
    have e2 : 2 * (k + 1) + 1 = 2 * k + 1 + 1 + 1 := by ring
    simp only [pack_pairs, e1, e2, List.getD_cons_succ]
    exact ih

/-- Claim C1, counterexample: at the input 2, which exceeds the largest
codepoint 1.0, the vectorized quantizer `quantize_tensor` returns 16
(`16 - 0` entries at or above the value), not the last index 15, so its
result is not always in [0, 15]. -/
theorem C1_counterexample :
    quantize_tensor (some 2) nf4 = 16 ∧ ¬ quantize_tensor (some 2) nf4 ≤ 15 := by
  norm_num [quantize_tensor, fle, nf4, List.countP_cons]

/-- Claim C1 (amended): the debug linear-scan quantizer `quantize` returns
the smallest index `i` with `value <= nf4[i]`, and the last index 15 when no
such index exists, exactly as claimed; the vectorized `quantize_tensor`
agrees with that rule for every value at most the largest codepoint 1.0 but
returns the out-of-range 16 for values above it. -/
theorem C1_scalar_quantizer_rule (q : ℚ) :
    quantize (some q) nf4 = specQuantize q nf4 ∧
    (q ≤ 1 → quantize_tensor (some q) nf4 = specQuantize q nf4) ∧
    (1 < q → quantize_tensor (some q) nf4 = 16) := by
  have hlen : nf4.length - 1 = 15 := rfl
  refine ⟨?_, ?_, ?_⟩
  · rw [quantize_eq_min_findIdx, specQuantize, hlen]
  · intro h
    rw [quantize_tensor_eq_findIdx, specQuantize, hlen]
    exact (Nat.min_eq_left (findIdx_le_15_of_le_one h)).symm
  · intro h
    rw [quantize_tensor]
    have hz : nf4.countP (fun c => fle (some q) c) = 0 := by
      rw [List.countP_eq_zero]
      intro c hc
      simp only [fle_some, decide_eq_true_eq]
      exact fun hqc => absurd (le_trans hqc (nf4_mem_le_one c hc)) (not_le.mpr h)
    rw [hz]

/-- Witness for C1 at the concrete input 0: both quantizers return the
spec-rule value (index 7, the zero codepoint). -/
theorem C1_witness :
    quantize (some 0) nf4 = specQuantize 0 nf4 ∧
    quantize_tensor (some 0) nf4 = specQuantize 0 nf4 :=
  ⟨(C1_scalar_quantizer_rule 0).1, (C1_scalar_quantizer_rule 0).2.1 (by norm_num)⟩

/-- Claim C2, counterexample: at the input 3/2 the linear-scan and the
vectorized quantizer disagree: 15 versus 16. -/
theorem C2_counterexample :
    quantize (some (3/2)) nf4 = 15 ∧ quantize_tensor (some (3/2)) nf4 = 16 ∧
    quantize (some (3/2)) nf4 ≠ quantize_tensor (some (3/2)) nf4 := by
  norm_num [quantize, quantize_tensor, fle, nf4, List.countP_cons]

/-- Claim C2 (amended): the linear-scan quantizer `QLoRAWeightDebug.quantize`
and the vectorized `QLoRAWeight.quantize_tensor` produce identical indices
for every input value at most the largest codepoint 1.0 (which covers every
value a nonzero-scaled block can produce); above 1.0 they differ (15 versus
16). -/
theorem C2_quantizers_agree (q : ℚ) (h : q ≤ 1) :
    quantize (some q) nf4 = quantize_tensor (some q) nf4 := by
  rw [quantize_eq_min_findIdx, quantize_tensor_eq_findIdx]
  exact Nat.min_eq_left (findIdx_le_15_of_le_one h)

/-- Witness for C2 at the concrete input 1/2. -/
theorem C2_witness :
    quantize (some (1/2)) nf4 = quantize_tensor (some (1/2)) nf4 :=
  C2_quantizers_agree (1/2) (by norm_num)

/-- Claim C9 (confirmed): both scalar quantizers are monotone: a larger
input value never gets a smaller codebook index. -/
theorem C9_quantizer_monotone (x1 x2 : ℚ) (h : x1 ≤ x2) :
    quantize (some x1) nf4 ≤ quantize (some x2) nf4 ∧
    quantize_tensor (some x1) nf4 ≤ quantize_tensor (some x2) nf4 := by
  have hf : nf4.findIdx (fun c => decide (x1 ≤ c)) ≤
      nf4.findIdx (fun c => decide (x2 ≤ c)) := by
    refine findIdx_mono_pred (fun c hc => ?_) nf4
    exact decide_eq_true (le_trans h (of_decide_eq_true hc))
  constructor
  · rw [quantize_eq_min_findIdx, quantize_eq_min_findIdx]
    exact min_le_min hf le_rfl
  · rw [quantize_tensor_eq_findIdx, quantize_tensor_eq_findIdx]
    exact hf

/-- Witness for C9 at the concrete inputs 0 and 1. -/
theorem C9_witness :
    quantize (some 0) nf4 ≤ quantize (some 1) nf4 ∧
    quantize_tensor (some 0) nf4 ≤ quantize_tensor (some 1) nf4 :=
  C9_quantizer_monotone 0 1 (by norm_num)

/-- Claim C4 (confirmed): unpacking the byte `(a << 4) | b` yields `(a, b)`
for every nibble pair in [0,15]×[0,15], and over a flattened index sequence
the even-positioned indices are the high nibbles and the odd-positioned
indices the low nibbles of consecutive bytes: byte `k` holds indices `2k`
and `2k+1`. -/
theorem C4_pack_unpack_roundtrip :
    (∀ a < 16, ∀ b < 16, unpack (pack a b) = (a, b)) ∧
    (∀ idx : List ℕ, (∀ i ∈ idx, i < 16) → ∀ k, 2 * k + 1 < idx.length →
      (pack_pairs idx).getD k 0 >>> 4 = idx.getD (2 * k) 0 ∧
      (pack_pairs idx).getD k 0 &&& 15 = idx.getD (2 * k + 1) 0) := by
  constructor
  · intro a ha b hb
    have hp := pack_nibbles a ha b hb
    rw [unpack, hp.1, hp.2]
  · exact pack_pairs_getD

/-- Witness for C4 at the concrete pair (3, 5) and the sequence [1,2,3,4]. -/
theorem C4_witness :
    unpack (pack 3 5) = (3, 5) ∧
    ((pack_pairs [1, 2, 3, 4]).getD 1 0 >>> 4 = [1, 2, 3, 4].getD (2 * 1) 0 ∧
     (pack_pairs [1, 2, 3, 4]).getD 1 0 &&& 15 = [1, 2, 3, 4].getD (2 * 1 + 1) 0) :=
  ⟨C4_pack_unpack_roundtrip.1 3 (by decide) 5 (by decide),
   C4_pack_unpack_roundtrip.2 [1, 2, 3, 4] (by decide) 1 (by decide)⟩

/-- Claim C5 (code bug, evaluated at the failing input): on the all-zero
block `[0, 0]` with block size 2 the scale is 0, the scaled values are NaN
(`0/0`), and the vectorized quantizer emits the out-of-range index 16 for
every element of the block — not the zero-codepoint index 7 the spec
requires; the debug path's linear scan falls through to 15 on NaN, also not
7.  The out-of-range indices then wrap in the packed uint8 byte. -/
theorem C5_zero_block_no_guard :
    get_scalers [0, 0] 2 = [0] ∧
    scaled_values [0, 0] 2 = [none, none] ∧
    quantized_blocks [0, 0] 2 = [16, 16] ∧
    convert_to_norm_float_weight [0, 0] 2 = [16] ∧
    (scaled_values [0, 0] 2).map (fun v => quantize v nf4) = [15, 15] ∧
    quantized_blocks [0, 0] 2 ≠ [7, 7] := by
  have hsc : get_scalers [0, 0] 2 = [0] := by
    norm_num [get_scalers, viewBlocks, absmax, List.range_succ]
  have hsv : scaled_values [0, 0] 2 = [none, none] := by
    norm_num [scaled_values, get_scalers, viewBlocks, absmax, scaleDiv,
      List.range_succ]
  have hq : quantized_blocks [0, 0] 2 = [16, 16] := by
    rw [quantized_blocks, hsv]
    norm_num [quantize_tensor, fle, nf4, List.countP_cons]
  refine ⟨hsc, hsv, hq, ?_, ?_, ?_⟩
  · rw [convert_to_norm_float_weight, hq]
    decide
  · rw [hsv]
    simp [quantize, fle, nf4]
  · rw [hq]
    decide

/-- Claim C6, counterexample: the valid tensor `[0, 0, 1, 2]` with block
size 2 (element count divisible by the block size and even) contains an
all-zero block, and the quantizer computes the out-of-range index 16 for
its elements. -/
theorem C6_counterexample :
    quantized_blocks [0, 0, 1, 2] 2 = [16, 16, 13, 15] ∧
    ∃ i ∈ quantized_blocks [0, 0, 1, 2] 2, 15 < i := by
  have h : quantized_blocks [0, 0, 1, 2] 2 = [16, 16, 13, 15] := by
    norm_num [quantized_blocks, scaled_values, get_scalers, viewBlocks, absmax,
      scaleDiv, quantize_tensor, fle, nf4, List.countP_cons, List.range_succ]
  exact ⟨h, 16, by simp [h], by norm_num⟩

/-- Claim C6 (amended): for every input tensor each of whose blocks contains
a nonzero element, every index computed by the quantizer is in [0, 15], and
both nibbles of every packed byte are in [0, 15].  Without the nonzero-block
condition an all-zero block yields the raw index 16 (see the
counterexample). -/
theorem C6_packed_indices_in_range (xs : List ℚ) (bs : ℕ)
    (hdiv : xs.length % bs = 0) (heven : xs.length % 2 = 0)
    (hnz : ∀ b ∈ viewBlocks (xs.length / bs) bs xs, absmax b ≠ 0) :
    (∀ i ∈ quantized_blocks xs bs, i ≤ 15) ∧
    (∀ y ∈ pack_pairs (quantized_blocks xs bs), y >>> 4 ≤ 15 ∧ y &&& 15 ≤ 15) := by
  constructor
  · intro i hi
    rcases List.mem_map.mp hi with ⟨v, hv, rfl⟩
    rcases mem_scaled_values hv with ⟨b, hb, x, hx, rfl⟩
    have hs0 : 0 < absmax b := lt_of_le_of_ne (absmax_nonneg b) (Ne.symm (hnz b hb))
    have hx1 : x ≤ absmax b := le_trans (le_abs_self x) (abs_le_absmax hx)
    have hq1 : x / absmax b ≤ 1 := (div_le_one hs0).mpr hx1
    rw [scaleDiv, if_neg (hnz b hb)]
    exact quantize_tensor_le_15_of_le_one hq1
  · intro y hy
    have h256 := mem_pack_pairs_lt_256 _ y hy
    constructor
    · have h16 : y >>> 4 = y / 16 := by
        rw [Nat.shiftRight_eq_div_pow]
      rw [h16]
      omega
    · exact le_trans Nat.and_le_right (by norm_num)

/-- Witness for C6 at the concrete tensor [1, 2] with block size 2. -/
theorem C6_witness :
    (∀ i ∈ quantized_blocks [(1 : ℚ), 2] 2, i ≤ 15) ∧
    (∀ y ∈ pack_pairs (quantized_blocks [(1 : ℚ), 2] 2),
      y >>> 4 ≤ 15 ∧ y &&& 15 ≤ 15) :=
  C6_packed_indices_in_range [(1 : ℚ), 2] 2 (by norm_num) (by norm_num)
    (by norm_num [viewBlocks, absmax, List.range_succ])

/-- Claim C7 (confirmed): for a tensor whose element count is divisible by
the block size, `get_scalers` returns exactly `n_blocks = numel / block_size`
values in block order; the k-th value is the absolute maximum over the k-th
contiguous non-overlapping block — nonnegative, an upper bound on every
`|x|` of that block, and attained by one of its elements. -/
theorem C7_block_scaler (xs : List ℚ) (bs : ℕ) (hbs : 0 < bs)
    (hdiv : xs.length % bs = 0) :
    (get_scalers xs bs).length = xs.length / bs ∧
    ∀ k, k < xs.length / bs →
      (get_scalers xs bs).getD k 0 = absmax ((xs.drop (k * bs)).take bs) ∧
      0 ≤ (get_scalers xs bs).getD k 0 ∧
      (∀ x ∈ (xs.drop (k * bs)).take bs, |x| ≤ (get_scalers xs bs).getD k 0) ∧
      ∃ x ∈ (xs.drop (k * bs)).take bs, |x| = (get_scalers xs bs).getD k 0 := by
  have hlen : (get_scalers xs bs).length = xs.length / bs := by
    simp [get_scalers, viewBlocks]
  refine ⟨hlen, ?_⟩
  intro k hk
  have hk2 : k < (get_scalers xs bs).length := by
    rw [hlen]
    exact hk
  have hgd : (get_scalers xs bs).getD k 0 = absmax ((xs.drop (k * bs)).take bs) := by
    rw [List.getD_eq_getElem _ _ hk2]
    simp [get_scalers, viewBlocks]
  have hne : (xs.drop (k * bs)).take bs ≠ [] := by
    have h2 : (k + 1) * bs ≤ (xs.length / bs) * bs := Nat.mul_le_mul_right bs hk
    have h3 : (xs.length / bs) * bs = xs.length :=
      Nat.div_mul_cancel (Nat.dvd_of_mod_eq_zero hdiv)
    have h4 : k * bs + bs ≤ xs.length := by
      calc k * bs + bs = (k + 1) * bs := by ring
        _ ≤ (xs.length / bs) * bs := h2
        _ = xs.length := h3
    have h5 : 0 < ((xs.drop (k * bs)).take bs).length := by
      rw [List.length_take, List.length_drop]
      generalize k * bs = t at h4 ⊢
      omega
    exact List.ne_nil_of_length_pos h5
  refine ⟨hgd, ?_, ?_, ?_⟩
  · rw [hgd]
    exact absmax_nonneg _
  · intro x hx
    rw [hgd]
    exact abs_le_absmax hx
  · rw [hgd]
    exact absmax_attained hne

/-- Witness for C7 at the tensor [1, -2] with block size 2. -/
theorem C7_witness :
    (get_scalers [(1 : ℚ), -2] 2).length = [(1 : ℚ), -2].length / 2 :=
  (C7_block_scaler [(1 : ℚ), -2] 2 (by norm_num) (by norm_num)).1

/-- Claim C8 (confirmed): with a bfloat16 input, construction fails with the
shape error exactly when the element count is not divisible by the block
size or is odd; when both divisibility conditions hold it succeeds.  The
`0 < bs` hypothesis keeps the model inside Python semantics (`% 0` raises
there). -/
theorem C8_shape_validation (xs : List ℚ) (bs : ℕ) (hbs : 0 < bs) :
    (qloraInit DType.bfloat16 xs bs = Except.error EncodeError.shapeError ↔
      (xs.length % bs ≠ 0 ∨ xs.length % 2 ≠ 0)) ∧
    (xs.length % bs = 0 → xs.length % 2 = 0 →
      ∃ a, qloraInit DType.bfloat16 xs bs = Except.ok a) := by
  rw [qloraInit]
  by_cases h1 : xs.length % bs = 0 <;> by_cases h2 : xs.length % 2 = 0 <;>
    simp [h1, h2]

/-- Witness for C8: the tensor [1, 2] with block size 2 passes validation. -/
theorem C8_witness :
    ∃ a, qloraInit DType.bfloat16 [(1 : ℚ), 2] 2 = Except.ok a :=
  (C8_shape_validation [(1 : ℚ), 2] 2 (by norm_num)).2 (by norm_num) (by norm_num)

/-- Claim C10 (confirmed): both constructors fail with the dtype assertion
exactly on non-bfloat16 inputs, so encoding accepts only bfloat16 tensors. -/
theorem C10_dtype_assertion (dtype : DType) (xs : List ℚ) (bs : ℕ) :
    (qloraInit dtype xs bs = Except.error EncodeError.dtypeError ↔
      dtype ≠ DType.bfloat16) ∧
    (qloraDebugInit dtype xs bs = Except.error EncodeError.dtypeError ↔
      dtype ≠ DType.bfloat16) := by
  by_cases hd : dtype = DType.bfloat16
  · subst hd
    rw [qloraInit, qloraDebugInit]
    by_cases h1 : xs.length % bs = 0 <;> by_cases h2 : xs.length % 2 = 0 <;>
      simp [h1, h2]
  · rw [qloraInit, qloraDebugInit]
    simp [hd]

end QLoRA
